import Mathlib

/-!
# Verification of the Potku depth-profile engine (erd_depth + libgsto + gsto_masses)

Shallow embedding, over `ℚ`, of the numerical core of the Potku ToF-ERDA
depth-profile reconstruction engine:

* the adaptive trapezoidal energy-loss integrator `get_eloss` and the
  primary-beam energy profile `calculate_primary_energy` (erd_depth),
* the per-event recoil depth walk of `calculate_recoil_depths` (erd_depth),
* the event-list reader `read_events` and the concentration state (erd_depth),
* the stopping-power assignment table and lookup (`gsto_auto_assign`,
  `gsto_sto_v` of libgsto.c),
* the isotope-mass lookup `find_mass` (gsto_masses.c).

All C `double` arithmetic is modelled exactly over `ℚ` (the floating-point
constants of the source are read as the decimal rationals they denote).
Square roots and `log10` do not appear in the embedded arithmetic: the
integrator is parametrised by the stopping function already composed with the
velocity conversion (the C code computes `inter_sto(z, sqrt(2*E/m), d)`, a
function of energy and depth for the fixed species `(z, m)`), and the domain
scale map of the stopping-table lookup is an explicit function parameter
(`id` for a linear x-scale, `log10` for a log10 x-scale).  `while` loops are
modelled with explicit fuel; `none` means the fuel ran out and is never
identified with a value the C program produces.
-/

namespace Potku

/-- C cast `(int)x` for a `double` `x`: truncation toward zero.
`Int` division in Lean truncates toward zero, matching C. -/
def cTrunc (x : ℚ) : Int := x.num / (x.den : Int)

/-- `#define MAXSTOCHANGE 0.05` (erd_depth): relative stopping-change
tolerance of the integrator. -/
def MAXSTOCHANGE : ℚ := 5 / 100

/-! ## The energy-loss integrator `get_eloss` (erd_depth)

```c
double get_eloss(General *general, int z,double m,double E,double d,double deltad,Stopping *sto)
{
   double dstep,dE,s1=0,s2=0,v,v2,r,dmin,dmax;
   dE = 0.0;
   dstep = deltad;
   if(E <= 0.0)
      return(0.0);
   v = sqrt((2.0*E)/m);
   dmin = d;
   dmax = (d + deltad)*1.000001;
   while((dmax - d) >= dstep){
      do {
         s1 = inter_sto(general, z,v,d,sto);
         if(E < s1*dstep)
            return(0.0);
         v2 = sqrt((2.0*(E - s1*dstep))/m);
         s2 = inter_sto(general, z,v2,d+dstep,sto);
         r = fabs(s2 - s1)/s1;
         if(r > MAXSTOCHANGE){
            dstep /= 2.0;
         }
      } while(r > MAXSTOCHANGE);
      dE += 0.5*(s1 + s2)*dstep;
      d += dstep;
   }
   dE += (dmax - d)*0.5*(s1 + s2);
   return(dE);
}
```

The species `(z, m)` and the table `sto` are fixed for the whole call, so the
two `inter_sto` evaluations are `f E' d'` for the function
`f E' d' := inter_sto(general, z, sqrt(2*E'/m), d', sto)`; the first always
uses the incoming energy `E` (the code computes `v` once, before the loop),
the second uses the trial energy `E - s1*dstep`.  The saturation check
`E < s1*dstep` guarantees the trial energy handed to `f` is nonnegative, so
this reparametrisation by energy is exact. -/

/-- Result of one acceptance round of the inner `do … while` refinement loop
of `get_eloss`. -/
inductive InnerRes where
  /-- The saturation check `E < s1*dstep` fired: the whole call returns 0. -/
  | sat : InnerRes
  /-- A sub-step was accepted with stopping values `s1`, `s2` and (possibly
  halved) step `dstep`. -/
  | ok (s1 s2 dstep : ℚ) : InnerRes
  /-- Fuel ran out (the C loop would still be running). -/
  | fuelOut : InnerRes
deriving DecidableEq

/-- The inner `do … while` loop of `get_eloss`: halve `dstep` until the
relative stopping change over the sub-step is within `MAXSTOCHANGE`, checking
saturation `E < s1*dstep` each round. -/
def innerLoop (f : ℚ → ℚ → ℚ) (E d : ℚ) : ℚ → Nat → InnerRes
  | _, 0 => .fuelOut
  | dstep, Nat.succ fuel =>
    let s1 := f E d
    if E < s1 * dstep then .sat
    else
      let s2 := f (E - s1 * dstep) (d + dstep)
      let r := |s2 - s1| / s1
      if MAXSTOCHANGE < r then innerLoop f E d (dstep / 2) fuel
      else .ok s1 s2 dstep

/-- The outer `while((dmax - d) >= dstep)` loop of `get_eloss`:
state `(d, dstep, dE, s1, s2)`, the accepted trapezoid `0.5*(s1+s2)*dstep`
accumulated per round, and the final partial remainder
`(dmax - d)*0.5*(s1+s2)` applied on exit with the last accepted pair. -/
def outerLoop (f : ℚ → ℚ → ℚ) (E dmax : ℚ) (nIn : Nat) :
    ℚ → ℚ → ℚ → ℚ → ℚ → Nat → Option ℚ
  | _, _, _, _, _, 0 => none
  | d, dstep, dE, s1, s2, Nat.succ fuel =>
    if dstep ≤ dmax - d then
      match innerLoop f E d dstep nIn with
      | .sat => some 0
      | .fuelOut => none
      | .ok t1 t2 st =>
        outerLoop f E dmax nIn (d + st) st (dE + (t1 + t2) * st / 2) t1 t2 fuel
    else
      some (dE + (dmax - d) * (s1 + s2) / 2)

/-- `get_eloss` of erd_depth, with the stopping lookup for the fixed species
abstracted into `f : energy → depth → stopping` (see the module comment):
returns `some dE` exactly when the C function returns `dE`, and `none` when
the fuel bounds are exhausted. -/
def get_eloss (f : ℚ → ℚ → ℚ) (E d deltad : ℚ) (nIn nOut : Nat) : Option ℚ :=
  if E ≤ 0 then some 0
  else outerLoop f E ((d + deltad) * (1000001 / 1000000)) nIn d deltad 0 0 0 nOut

/-- Normal-exit data of the instrumented outer loop: the list of accepted
sub-steps `(s1, s2, step)` in order, and on normal exit the final depth and
the `(s1, s2)` pair in scope when the partial remainder is closed. -/
inductive TraceRes where
  /-- The saturation rule fired during the traversal. -/
  | sat (steps : List (ℚ × ℚ × ℚ)) : TraceRes
  /-- Normal exit: accepted sub-steps, final depth, and last `(s1, s2)`. -/
  | done (steps : List (ℚ × ℚ × ℚ)) (dFin l1 l2 : ℚ) : TraceRes
deriving DecidableEq

/-- Prepend an accepted sub-step to a trace. -/
def TraceRes.cons (t : ℚ × ℚ × ℚ) : TraceRes → TraceRes
  | .sat steps => .sat (t :: steps)
  | .done steps dFin l1 l2 => .done (t :: steps) dFin l1 l2

/-- Ghost-instrumented version of `outerLoop`: same control flow, recording
the accepted sub-steps instead of accumulating `dE`. -/
def outerTr (f : ℚ → ℚ → ℚ) (E dmax : ℚ) (nIn : Nat) :
    ℚ → ℚ → ℚ → ℚ → Nat → Option TraceRes
  | _, _, _, _, 0 => none
  | d, dstep, s1, s2, Nat.succ fuel =>
    if dstep ≤ dmax - d then
      match innerLoop f E d dstep nIn with
      | .sat => some (.sat [])
      | .fuelOut => none
      | .ok t1 t2 st =>
        (outerTr f E dmax nIn (d + st) st t1 t2 fuel).map (TraceRes.cons (t1, t2, st))
    else
      some (.done [] d s1 s2)

/-- Sum of the trapezoid contributions `0.5*(s1+s2)*step` of a list of
accepted sub-steps. -/
def trapSum (steps : List (ℚ × ℚ × ℚ)) : ℚ :=
  (steps.map (fun t => (t.1 + t.2.1) * t.2.2 / 2)).sum

/-- Sum of the step lengths of a list of accepted sub-steps. -/
def stepSum (steps : List (ℚ × ℚ × ℚ)) : ℚ :=
  (steps.map (fun t => t.2.2)).sum

/-! ## `calculate_primary_energy` (erd_depth)

```c
E = meas->E;
d = 0.0;
Emin = 0.1*meas->E;            // dead: Emin is never used afterwards
dmult = 1.0/sin(meas->target_angle);
dstep = conc->dstep;
while(id < general->maxdstep){
   conc->Ebeam[id] = E;
   E -= get_eloss(general, meas->Z,meas->M,E,d,dstep*dmult,sto);
   d += dstep;
   id++;
}
```

`dmult` (a fixed trigonometric factor) is taken as a parameter; `f` is the
beam species' composite stopping as in `get_eloss`. -/

/-- Body of the `while(id < maxdstep)` loop of `calculate_primary_energy`;
returns the list of `Ebeam` values written, in increasing depth-bin order. -/
def primLoop (f : ℚ → ℚ → ℚ) (dstep dmult : ℚ) (nIn nOut : Nat) :
    ℚ → ℚ → Nat → Option (List ℚ)
  | _, _, 0 => some []
  | E, d, Nat.succ n =>
    match get_eloss f E d (dstep * dmult) nIn nOut with
    | none => none
    | some dE => (primLoop f dstep dmult nIn nOut (E - dE) (d + dstep) n).map (E :: ·)

/-- `calculate_primary_energy` of erd_depth: the beam-energy table
`Ebeam[0..maxdstep-1]`, starting from the beam energy `E0` at depth 0. -/
def calculate_primary_energy (f : ℚ → ℚ → ℚ) (E0 dstep dmult : ℚ)
    (maxdstep nIn nOut : Nat) : Option (List ℚ) :=
  primLoop f dstep dmult nIn nOut E0 0 maxdstep

/-- A list is strictly decreasing (each entry greater than the next). -/
def strictlyDecr (L : List ℚ) : Prop := List.Chain' (· > ·) L

instance (L : List ℚ) : Decidable (strictlyDecr L) := by
  unfold strictlyDecr; infer_instance

/-! ## The recoil-depth walk of `calculate_recoil_depths` (erd_depth)

For one event of energy `recE = event.E` (the `recE < beamE` branch of the
code, lines 535–557):

```c
d = 0.0; id = 0; dstep = conc->dstep;
recE = event[ie].E;
beamE = conc->Ebeam[0]*K;
...
} else {
   while((id < general->maxdstep) && (recE < beamE)){
      dE = get_eloss(general, Z,M,recE,d,dstep*dmult,sto);   // (species per type)
      recE += dE;
      id++;
      d += dstep;
      beamE = conc->Ebeam[id]*K;                             // read Ebeam[id]
   }
   if(id < general->maxdstep){
      bk = (beamE - conc->Ebeam[id-1]*K)/dstep;              // read Ebeam[id-1]
      rk = dE/dstep;
      event[ie].d = (d - dstep) + (conc->Ebeam[id-1]*K - (recE - dE))/(rk - bk);
      recE = (recE - dE) + rk*(event[ie].d - (d - dstep));
   }
   beamE = conc->Ebeam[id] + (event[ie].d - id*dstep)*       // read Ebeam[id], Ebeam[id-1]
           (conc->Ebeam[id] - conc->Ebeam[id-1])/dstep;
}
```

`Ebeam` is total here (`Nat → ℚ`); the ghost `reads` list records every index
at which the C code dereferences `conc->Ebeam`, in program order, so that the
in-bounds property of the accesses can be stated.  `f` is the stopping
function of the species integrated in the loop (the event's own species for
ERD events, the beam's for RBS), as in `get_eloss`. -/

/-- Outcome of the forward depth walk: final `recE`, `beamE`, last `dE`,
final depth `d`, final bin index `id`, and the `Ebeam` indices read. -/
structure WalkOut where
  recE : ℚ
  beamE : ℚ
  dE : ℚ
  d : ℚ
  id : Nat
  reads : List Nat
deriving DecidableEq

/-- The `while((id < maxdstep) && (recE < beamE))` walk. -/
def recoilWalk (f : ℚ → ℚ → ℚ) (Ebeam : Nat → ℚ) (K dstep dmult : ℚ)
    (maxdstep nIn nOut : Nat) :
    ℚ → ℚ → ℚ → ℚ → Nat → List Nat → Nat → Option WalkOut
  | _, _, _, _, _, _, 0 => none
  | recE, beamE, dE, d, id, reads, Nat.succ fuel =>
    if id < maxdstep ∧ recE < beamE then
      match get_eloss f recE d (dstep * dmult) nIn nOut with
      | none => none
      | some dE' =>
        recoilWalk f Ebeam K dstep dmult maxdstep nIn nOut
          (recE + dE') (Ebeam (id + 1) * K) dE' (d + dstep) (id + 1)
          (reads ++ [id + 1]) fuel
    else some ⟨recE, beamE, dE, d, id, reads⟩

/-- The full `recE < beamE` branch for one event: walk, crossing-point
refinement when `id < maxdstep`, and the unconditional local beam-energy
correction.  Returns `(event.d, beamE, reads)`; `dPrev` is the value
`event.d` holds on entry (it is left unchanged when `id` reached
`maxdstep`). -/
def recoilDepthBelow (f : ℚ → ℚ → ℚ) (Ebeam : Nat → ℚ) (K dstep dmult dPrev : ℚ)
    (maxdstep nIn nOut fuel : Nat) (E0 : ℚ) : Option (ℚ × ℚ × List Nat) :=
  match recoilWalk f Ebeam K dstep dmult maxdstep nIn nOut
      E0 (Ebeam 0 * K) 0 0 0 [0] fuel with
  | none => none
  | some o =>
    let refined :=
      if o.id < maxdstep then
        let bk := (o.beamE - Ebeam (o.id - 1) * K) / dstep
        let rk := o.dE / dstep
        let dv := (o.d - dstep) + (Ebeam (o.id - 1) * K - (o.recE - o.dE)) / (rk - bk)
        (dv, o.reads ++ [o.id - 1, o.id - 1])
      else (dPrev, o.reads)
    let beamE' := Ebeam o.id +
      (refined.1 - (o.id : ℚ) * dstep) * (Ebeam o.id - Ebeam (o.id - 1)) / dstep
    some (refined.1, beamE', refined.2 ++ [o.id, o.id - 1])

/-! ## `read_events` and the concentration state (erd_depth)

```c
while(fgets(buf,NLINE,fp) != NULL && cont){
   c = sscanf(buf,"%lf %lf %lf %i %lf %s %lf %i", &x,&y,&E,&Z,&M,type,&w,&n);
   if(c != 8){ fprintf(stderr,"Problems at input line %i\n",i+1); }
   if(i < MAXEVENTS){
      event[i].theta = meas->detector_angle + x;
      event[i].fii = y;
      event[i].E = E*C_MEV;
      event[i].Z = Z;
      event[i].M = M*C_U;
      event[i].A = (int) (M + 0.5);
      A = event[i].A;
      event[i].w0 = w;
      event[i].w = w/ipow2(Z*(1.0 + meas->M/event[i].M));
      event[i].n = n;
      event[i].v = sqrt(2.0*event[i].E/event[i].M);
      if(event[i].v > general->vmax) general->vmax = event[i].v;
      event[i].d = 0.0;
      k = (int) (event[i].d/conc->dstep);
      conc->w[Z][k] += event[i].w;
      conc->n[Z][k] ++;
      conc->wsum[k] += event[i].w;
      conc->nsum[k] ++;
      (general->element[Z])++;
      (general->nuclide[Z][A])++;
      general->M[Z] = M*C_U;
      if(!strncmp(type,"ERD",TYPELEN)){ event[i].type = ERD; }
      else if(!strncmp(type,"RBS",TYPELEN)){ event[i].type = RBS; }
      else { fprintf(stderr,"Event type neither ERD nor RBS!\n"); exit(2); }
      i++;
   } else {
      cont = FALSE;
      fprintf(stderr,"Too many events, reading stopped at line %i\n",i+1);
   }
}
```

`sscanf` assigns the leading fields of a line until the first mismatch and
leaves the trailing variables at their previous (stale, possibly
uninitialised) values; a line is therefore modelled as the number `c` of
fields it parses together with the values of those leading fields
(`mergeFields`).  The 3-character type buffer compared by
`strncmp(type,"ERD",3)` / `strncmp(type,"RBS",3)` is modelled by a token.
`MAXEVENTS` (10000000 in the source) is a parameter so that the truncation
branch can be exercised; the square root used only for the `vmax` bookkeeping
is an abstract function parameter `sq`. -/

/-- `#define MAXEVENTS 10000000` of the source. -/
def MAXEVENTS : Nat := 10000000

/-- `#define C_U 1.6605402e-27` (atomic mass unit in kg), as the decimal
rational the C literal denotes. -/
def C_U : ℚ := 16605402 / 10 ^ 34

/-- `C_EV = 1.60217733e-19` (eV in J). -/
def C_EV : ℚ := 160217733 / 10 ^ 27

/-- `C_MEV = 1000000.0 * C_EV`. -/
def C_MEV : ℚ := 1000000 * C_EV

/-- The contents of the 3-character event-type buffer, up to the
`strncmp(·,"ERD",3) == 0` / `strncmp(·,"RBS",3) == 0` tests. -/
inductive TypeTok where
  | erd : TypeTok
  | rbs : TypeTok
  | other : TypeTok
deriving DecidableEq

/-- The stack variables `x,y,E,Z,M,type,w,n` that `sscanf` writes into. -/
structure RawFields where
  x : ℚ
  y : ℚ
  E : ℚ
  Z : Int
  M : ℚ
  ty : TypeTok
  w : ℚ
  n : Int
deriving DecidableEq

/-- One input line: the number `c` of fields `sscanf` parses (`0 ≤ c ≤ 8`)
and the values of those leading fields. -/
structure InLine where
  c : Nat
  f : RawFields
deriving DecidableEq

/-- Effect of `sscanf` on the eight variables: the first `c` fields take the
line's values, the rest keep their previous (stale) values. -/
def mergeFields (old new : RawFields) (c : Nat) : RawFields where
  x := if 1 ≤ c then new.x else old.x
  y := if 2 ≤ c then new.y else old.y
  E := if 3 ≤ c then new.E else old.E
  Z := if 4 ≤ c then new.Z else old.Z
  M := if 5 ≤ c then new.M else old.M
  ty := if 6 ≤ c then new.ty else old.ty
  w := if 7 ≤ c then new.w else old.w
  n := if 8 ≤ c then new.n else old.n

/-- The per-depth-bin concentration accumulators of `Concentration`
(`w[Z][id]`, `n[Z][id]`, `wsum[id]`, `nsum[id]`), as total maps. -/
structure Conc where
  w : Int → Int → ℚ
  n : Int → Int → Int
  wsum : Int → ℚ
  nsum : Int → Int

/-- `clear_conc`: every element/bin accumulator zeroed. -/
def clear_conc : Conc where
  w := fun _ _ => 0
  n := fun _ _ => 0
  wsum := fun _ => 0
  nsum := fun _ => 0

/-- The four `+=`/`++` accumulations into bin `k` for element `Z` performed
per event by `read_events` (and by the rebin step). -/
def concAdd (c : Conc) (Z k : Int) (wv : ℚ) : Conc where
  w := fun a b => if a = Z ∧ b = k then c.w a b + wv else c.w a b
  n := fun a b => if a = Z ∧ b = k then c.n a b + 1 else c.n a b
  wsum := fun b => if b = k then c.wsum b + wv else c.wsum b
  nsum := fun b => if b = k then c.nsum b + 1 else c.nsum b

/-- One parsed event (the fields of `Event` that `read_events` fills). -/
structure EventRec where
  theta : ℚ
  fii : ℚ
  E : ℚ
  v : ℚ
  ty : Nat
  n : Int
  Z : Int
  A : Int
  M : ℚ
  w0 : ℚ
  w : ℚ
  d : ℚ

/-- State threaded through the `read_events` loop: events read so far, the
concentration accumulators, the line numbers of the `"Problems at input
line"` diagnostics, the `element`/`nuclide` counters and per-element mass of
`General`, the running `vmax`, and whether the `"Too many events"` truncation
fired. -/
structure REState where
  events : List EventRec
  conc : Conc
  diags : List Nat
  elementCnt : Int → Int
  nuclideCnt : Int → Int → Int
  elemM : Int → ℚ
  vmax : ℚ
  truncated : Bool

/-- The `read_events` input loop.  `detAngle`, `measM`, `dstep` are
`meas->detector_angle`, `meas->M`, `conc->dstep`; `i` is the event counter;
`prev` holds the current (stale) values of the `sscanf` variables.
`Except.error 2` is the `exit(2)` on an event type that is neither ERD nor
RBS. -/
def read_events_go (sq : ℚ → ℚ) (detAngle measM dstep : ℚ) (maxevents : Nat) :
    List InLine → RawFields → Nat → REState → Except Int REState
  | [], _, _, st => Except.ok st
  | ln :: rest, prev, i, st =>
    let fl := mergeFields prev ln.f ln.c
    let st1 := if ln.c ≠ 8 then { st with diags := st.diags ++ [i + 1] } else st
    if i < maxevents then
      let Ev := fl.E * C_MEV
      let Mv := fl.M * C_U
      let A := cTrunc (fl.M + 1 / 2)
      let wv := fl.w / (fl.Z * (1 + measM / Mv)) ^ 2
      let vv := sq (2 * Ev / Mv)
      let vmax' := if st1.vmax < vv then vv else st1.vmax
      let dv : ℚ := 0
      let k := cTrunc (dv / dstep)
      let conc' := concAdd st1.conc fl.Z k wv
      let elementCnt' := fun z => if z = fl.Z then st1.elementCnt z + 1 else st1.elementCnt z
      let nuclideCnt' := fun z a =>
        if z = fl.Z ∧ a = A then st1.nuclideCnt z a + 1 else st1.nuclideCnt z a
      let elemM' := fun z => if z = fl.Z then fl.M * C_U else st1.elemM z
      match (match fl.ty with
             | TypeTok.erd => some 1
             | TypeTok.rbs => some 2
             | TypeTok.other => none : Option Nat) with
      | none => Except.error 2
      | some tcode =>
        let ev : EventRec :=
          ⟨detAngle + fl.x, fl.y, Ev, vv, tcode, fl.n, fl.Z, A, Mv, fl.w, wv, dv⟩
        read_events_go sq detAngle measM dstep maxevents rest fl (i + 1)
          { events := st1.events ++ [ev], conc := conc', diags := st1.diags,
            elementCnt := elementCnt', nuclideCnt := nuclideCnt', elemM := elemM',
            vmax := vmax', truncated := st1.truncated }
    else
      Except.ok { st1 with truncated := true }

/-- `read_events`, starting (as in `main`) from the cleared concentration
state; `raw0` models the uninitialised stack variables before the first
line. -/
def read_events (sq : ℚ → ℚ) (detAngle measM dstep vmax0 : ℚ) (maxevents : Nat)
    (raw0 : RawFields) (lines : List InLine) : Except Int REState :=
  read_events_go sq detAngle measM dstep maxevents lines raw0 0
    { events := [], conc := clear_conc, diags := [],
      elementCnt := fun _ => 0, nuclideCnt := fun _ _ => 0, elemM := fun _ => 0,
      vmax := vmax0, truncated := false }

/-- Projection used to state facts about the final accumulated weight of
element `Z` in depth bin 0 (returns 0 in the `exit` case). -/
def finalW0 (r : Except Int REState) (Z : Int) : ℚ :=
  match r with
  | .error _ => 0
  | .ok st => st.conc.w Z 0

/-! ## The stopping-power table (libgsto.c)

`gsto_file_t` header data, the dense assignment matrix
`assigned_files[Z1][Z2]` (a matrix of pointers into the registered-file
array, modelled by indices into `files`), and the loaded values
`ele[Z1][Z2][i]` (a total map; `gsto_sto_v` only dereferences it for an
assigned pair at interpolation indices). -/

/-- `x-scale` of a stopping file: `linear` or `log10`. -/
inductive XScale where
  | linear : XScale
  | logTen : XScale
deriving DecidableEq

/-- `x-unit` of a stopping file: `m/s` or `keV/u`. -/
inductive XUnit where
  | msSpeed : XUnit
  | kevu : XUnit
deriving DecidableEq

/-- The header fields of a `gsto_file_t` used by assignment and lookup. -/
structure GFile where
  Z1_min : Int
  Z1_max : Int
  Z2_min : Int
  Z2_max : Int
  xmin : ℚ
  xmax : ℚ
  xpoints : Int
  xscale : XScale
  xunit : XUnit
deriving DecidableEq

/-- `gsto_table_t`: configured maxima, registered files in registration
order, the assignment matrix (an index into `files`, `none` = NULL), and the
loaded stopping values `ele[Z1][Z2][i]`. -/
structure GTable where
  Z1_max : Int
  Z2_max : Int
  files : List GFile
  assigned : Int → Int → Option Nat
  ele : Int → Int → Int → ℚ

/-- The range test of `gsto_auto_assign`:
`file->Z1_min<=Z1 && file->Z1_max >= Z1 && file->Z2_min <= Z2 && file->Z2_max >= Z2`. -/
def gfileCovers (f : GFile) (Z1 Z2 : Int) : Bool :=
  decide (f.Z1_min ≤ Z1) && decide (Z1 ≤ f.Z1_max) &&
  decide (f.Z2_min ≤ Z2) && decide (Z2 ≤ f.Z2_max)

/-- The `for (i=0; i<table->n_files; i++) … break` scan of
`gsto_auto_assign`: index of the first registered file covering
`(Z1, Z2)`. -/
def scanFiles (Z1 Z2 : Int) : List GFile → Nat → Option Nat
  | [], _ => none
  | f :: rest, i => if gfileCovers f Z1 Z2 then some i else scanFiles Z1 Z2 rest (i + 1)

/-- `gsto_auto_assign`: assign the pair to the first covering registered
file (via `gsto_assign`) and return 1, or leave the table unchanged and
return 0. -/
def gsto_auto_assign (t : GTable) (Z1 Z2 : Int) : GTable × Bool :=
  match scanFiles Z1 Z2 t.files 0 with
  | some i =>
    ({ t with assigned := fun a b => if a = Z1 ∧ b = Z2 then some i else t.assigned a b },
     true)
  | none => (t, false)

/-- The `x-unit` conversion of `gsto_sto_v`: identity for `m/s`; for `keV/u`
the relativistic conversion `x = (γ−1)·c²/(keV/amu)` is the function
parameter `conv` (it involves a square root of the source's `double`
arithmetic). -/
def xToNative (conv : ℚ → ℚ) (u : XUnit) (v : ℚ) : ℚ :=
  match u with
  | .kevu => conv v
  | .msSpeed => v

/-- The fractional index `i_float` of `gsto_sto_v`.  The `x-scale` map is
the parameter `lg`: the `log10` branch computes
`(lg x − lg xmin)/(lg xmax − lg xmin)·(xpoints−1)`, the linear branch the
same formula with the identity in place of `lg`. -/
def iFloat (lg : ℚ → ℚ) (f : GFile) (x : ℚ) : ℚ :=
  match f.xscale with
  | .logTen => (lg x - lg f.xmin) / (lg f.xmax - lg f.xmin) * ((f.xpoints : ℚ) - 1)
  | .linear => (x - f.xmin) / (f.xmax - f.xmin) * ((f.xpoints : ℚ) - 1)

/-- `gsto_sto_v` of libgsto.c: range checks on `Z1`/`Z2`, NULL check on the
assigned file, unit conversion, the open-interval clamp
`x <= xmin → 0`, `x >= xmax → 0`, and linear interpolation of the two
bracketing stored values at the floored fractional index.  (The C stderr
log messages accompanying the zero returns are not modelled.)  An assigned
index always references a registered file; the `none` dereference branch is
unreachable for tables produced by registration and assignment. -/
def gsto_sto_v (conv lg : ℚ → ℚ) (t : GTable) (Z1 Z2 : Int) (v : ℚ) : ℚ :=
  if Z1 ≤ 0 ∨ t.Z1_max < Z1 then 0
  else if Z2 ≤ 0 ∨ t.Z2_max < Z2 then 0
  else
    match t.assigned Z1 Z2 with
    | none => 0
    | some fi =>
      match t.files[fi]? with
      | none => 0
      | some f =>
        let x := xToNative conv f.xunit v
        if x ≤ f.xmin then 0
        else if f.xmax ≤ x then 0
        else
          let iF := iFloat lg f x
          let i : Int := ⌊iF⌋
          let lo := t.ele Z1 Z2 i
          let hi := t.ele Z1 Z2 (i + 1)
          (hi - lo) * (iF - (i : ℚ)) + lo

/-- The `k`-th domain grid point of a linear-x-scale source:
`xmin + k·(xmax−xmin)/(xpoints−1)`. -/
def gridX (f : GFile) (k : Int) : ℚ :=
  f.xmin + (k : ℚ) * ((f.xmax - f.xmin) / ((f.xpoints : ℚ) - 1))

/-! ## Isotope masses (gsto_masses.c) -/

/-- One record of the isotope table. -/
structure IsotopeRec where
  N : Int
  Z : Int
  A : Int
  mass : ℚ
  abundance : ℚ
deriving DecidableEq

/-- `find_mass` of gsto_masses.c, its loop written as recursion over the
records with the running accumulator `mass`:

```c
double find_mass(isotopes_t *isotopes, int Z, int A) {
    double mass=0.0;
    for(i=0; i<isotopes->n_isotopes; i++) {
        isotope=&isotopes->i[i];
        if(isotope->Z == Z) {
            if(isotope->A == A) { return isotope->mass; }
            if(isotope->A == 0) { mass += isotope->mass*isotope->abundance; }
        }
    }
    return mass;
}
``` -/
def find_massGo (Z A : Int) : List IsotopeRec → ℚ → ℚ
  | [], mass => mass
  | i :: rest, mass =>
    if i.Z = Z then
      if i.A = A then i.mass
      else if i.A = 0 then find_massGo Z A rest (mass + i.mass * i.abundance)
      else find_massGo Z A rest mass
    else find_massGo Z A rest mass

/-- `find_mass(isotopes, Z, A)`. -/
def find_mass (iso : List IsotopeRec) (Z A : Int) : ℚ :=
  find_massGo Z A iso 0

/-- Modelled from the spec: `average_mass(table, Z)` as the spec states it —
the abundance-weighted sum of the masses of all isotopes of `Z` in the
table.  (Stated for comparison with what `find_mass(table, Z, 0)` actually
computes.) -/
def average_mass_spec (iso : List IsotopeRec) (Z : Int) : ℚ :=
  ((iso.filter (fun i => i.Z = Z)).map (fun i => i.mass * i.abundance)).sum

/-! ## Concrete instances used by witnesses and counterexamples -/

/-- A linear, m/s stopping source covering `1 ≤ Z1,Z2 ≤ 2` with three domain
points `1, 2, 3`. -/
def F5 : GFile := ⟨1, 2, 1, 2, 1, 3, 3, XScale.linear, XUnit.msSpeed⟩

/-- A table with `F5` registered and assigned to `(1,1)`, every stored
stopping value equal to `5`. -/
def T5 : GTable :=
  ⟨2, 2, [F5], fun a b => if a = 1 ∧ b = 1 then some 0 else none, fun _ _ _ => 5⟩

/-! ## Lemmas on the assignment scan -/

/-- The scan's result index is the start index plus the position of the
first covering file. -/
lemma scanFiles_shift (Z1 Z2 : Int) (L : List GFile) :
    ∀ i : Nat, scanFiles Z1 Z2 L i = (scanFiles Z1 Z2 L 0).map (· + i) := by
  induction L with
  | nil => intro i; simp [scanFiles]
  | cons g rest ih =>
    intro i
    by_cases h : gfileCovers g Z1 Z2
    · simp [scanFiles, h]
    · rw [scanFiles, scanFiles, if_neg h, if_neg h, ih (i + 1), ih 1, Option.map_map]
      congr 1
      funext x
      simp only [Function.comp_apply]
      omega

/-- The scan fails exactly when no registered file covers the pair. -/
lemma scanFiles_eq_none (Z1 Z2 : Int) :
    ∀ (L : List GFile) (i : Nat),
      scanFiles Z1 Z2 L i = none ↔ ∀ f ∈ L, gfileCovers f Z1 Z2 = false := by
  intro L
  induction L with
  | nil => intro i; simp [scanFiles]
  | cons g rest ih =>
    intro i
    by_cases h : gfileCovers g Z1 Z2
    · simp [scanFiles, h]
    · simp [scanFiles, h, ih (i + 1)]

/-- A successful scan from index 0 returns the position of the first
covering file: that file covers, and no earlier file does. -/
lemma scanFiles_first (Z1 Z2 : Int) :
    ∀ (L : List GFile) (j : Nat), scanFiles Z1 Z2 L 0 = some j →
      ∃ f, L[j]? = some f ∧ gfileCovers f Z1 Z2 = true ∧
        ∀ m, m < j → ∀ g, L[m]? = some g → gfileCovers g Z1 Z2 = false := by
  intro L
  induction L with
  | nil => intro j h; simp [scanFiles] at h
  | cons g rest ih =>
    intro j h
    by_cases hc : gfileCovers g Z1 Z2
    · rw [scanFiles, if_pos hc] at h
      obtain rfl : (0 : Nat) = j := Option.some.inj h
      exact ⟨g, by simp, hc, fun m hm => absurd hm (Nat.not_lt_zero m)⟩
    · rw [scanFiles, if_neg hc, scanFiles_shift Z1 Z2 rest 1] at h
      obtain ⟨j', hj', rfl⟩ := Option.map_eq_some'.mp h
      obtain ⟨f, hf, hcov, hmin⟩ := ih j' hj'
      refine ⟨f, by simpa using hf, hcov, ?_⟩
      intro m hm g' hg'
      match m with
      | 0 =>
        obtain rfl : g = g' := by simpa using hg'
        simpa using hc
      | Nat.succ m' =>
        exact hmin m' (by omega) g' (by simpa using hg')

/-- C3: `gsto_auto_assign` scans the registered sources in registration
order, assigns the pair to the first whose declared ranges cover `(Z1, Z2)`,
returns true exactly when some registered source covers the pair, and leaves
the pair (and the table) unchanged, returning false, otherwise; a pair
covered by sources registered in order A then B resolves to A. -/
theorem claim3_auto_assign_first (t : GTable) (Z1 Z2 : Int)
    (hZ1 : 0 < Z1 ∧ Z1 ≤ t.Z1_max) (hZ2 : 0 < Z2 ∧ Z2 ≤ t.Z2_max) :
    ((gsto_auto_assign t Z1 Z2).2 = true ↔ ∃ f ∈ t.files, gfileCovers f Z1 Z2 = true)
    ∧ (∀ j, scanFiles Z1 Z2 t.files 0 = some j →
        (gsto_auto_assign t Z1 Z2).1.assigned Z1 Z2 = some j ∧
        ∃ f, t.files[j]? = some f ∧ gfileCovers f Z1 Z2 = true ∧
          ∀ m, m < j → ∀ g, t.files[m]? = some g → gfileCovers g Z1 Z2 = false)
    ∧ ((∀ f ∈ t.files, gfileCovers f Z1 Z2 = false) → gsto_auto_assign t Z1 Z2 = (t, false))
    ∧ (∀ A B rest, t.files = A :: B :: rest → gfileCovers A Z1 Z2 = true →
        (gsto_auto_assign t Z1 Z2).1.assigned Z1 Z2 = some 0) := by
  refine ⟨?_, ?_, ?_, ?_⟩
  · have h1 : (gsto_auto_assign t Z1 Z2).2 = true ↔ scanFiles Z1 Z2 t.files 0 ≠ none := by
      unfold gsto_auto_assign
      cases h : scanFiles Z1 Z2 t.files 0 <;> simp [h]
    rw [h1, Ne, scanFiles_eq_none Z1 Z2 t.files 0]
    push_neg
    simp [Bool.not_eq_false]
  · intro j hj
    refine ⟨?_, scanFiles_first Z1 Z2 t.files j hj⟩
    unfold gsto_auto_assign
    rw [hj]
    simp
  · intro hall
    unfold gsto_auto_assign
    rw [(scanFiles_eq_none Z1 Z2 t.files 0).mpr hall]
  · intro A B rest hfiles hcov
    have hscan : scanFiles Z1 Z2 t.files 0 = some 0 := by
      rw [hfiles, scanFiles, if_pos hcov]
    unfold gsto_auto_assign
    rw [hscan]
    simp

/-- Witness for C3 at a concrete table: the pair `(1,1)` is covered by the
single registered file, so it is assigned index 0. -/
theorem claim3_witness :
    (0 < (1 : Int) ∧ (1 : Int) ≤ T5.Z1_max) ∧ (0 < (1 : Int) ∧ (1 : Int) ≤ T5.Z2_max) ∧
    scanFiles 1 1 T5.files 0 = some 0 ∧
    (gsto_auto_assign T5 1 1).1.assigned 1 1 = some 0 :=
  ⟨⟨by decide, by decide⟩, ⟨by decide, by decide⟩, by decide,
    ((claim3_auto_assign_first T5 1 1 ⟨by decide, by decide⟩ ⟨by decide, by decide⟩).2.1
      0 (by decide)).1⟩

/-- C4: `gsto_sto_v` returns 0 when `Z1` is outside `(0, Z1_max]`, when `Z2`
is outside `(0, Z2_max]`, when the pair has no assigned source, and — for an
assigned source — whenever the converted query position is `≤ xmin` or
`≥ xmax` (boundary-exclusive open-interval clamp to 0, no extrapolation).
The accompanying stderr messages are not modelled. -/
theorem claim4_lookup_clamp (conv lg : ℚ → ℚ) (t : GTable) (Z1 Z2 : Int) (v : ℚ) :
    (Z1 ≤ 0 ∨ t.Z1_max < Z1 → gsto_sto_v conv lg t Z1 Z2 v = 0)
    ∧ (Z2 ≤ 0 ∨ t.Z2_max < Z2 → gsto_sto_v conv lg t Z1 Z2 v = 0)
    ∧ (t.assigned Z1 Z2 = none → gsto_sto_v conv lg t Z1 Z2 v = 0)
    ∧ (∀ fi f, t.assigned Z1 Z2 = some fi → t.files[fi]? = some f →
        (xToNative conv f.xunit v ≤ f.xmin → gsto_sto_v conv lg t Z1 Z2 v = 0)
        ∧ (f.xmax ≤ xToNative conv f.xunit v → gsto_sto_v conv lg t Z1 Z2 v = 0)) := by
  refine ⟨fun h1 => by rw [gsto_sto_v, if_pos h1], ?_, ?_, ?_⟩
  · intro h2
    by_cases h1 : Z1 ≤ 0 ∨ t.Z1_max < Z1
    · rw [gsto_sto_v, if_pos h1]
    · rw [gsto_sto_v, if_neg h1, if_pos h2]
  · intro hass
    by_cases h1 : Z1 ≤ 0 ∨ t.Z1_max < Z1
    · rw [gsto_sto_v, if_pos h1]
    · by_cases h2 : Z2 ≤ 0 ∨ t.Z2_max < Z2
      · rw [gsto_sto_v, if_neg h1, if_pos h2]
      · rw [gsto_sto_v, if_neg h1, if_neg h2, hass]
  · intro fi f hass hfile
    by_cases h1 : Z1 ≤ 0 ∨ t.Z1_max < Z1
    · constructor <;> intro _ <;> rw [gsto_sto_v, if_pos h1]
    · by_cases h2 : Z2 ≤ 0 ∨ t.Z2_max < Z2
      · constructor <;> intro _ <;> rw [gsto_sto_v, if_neg h1, if_pos h2]
      · constructor <;> intro hx
        · rw [gsto_sto_v, if_neg h1, if_neg h2, hass]
          simp only [hfile]
          rw [if_pos hx]
        · rw [gsto_sto_v, if_neg h1, if_neg h2, hass]
          simp only [hfile]
          by_cases hlo : xToNative conv f.xunit v ≤ f.xmin
          · rw [if_pos hlo]
          · rw [if_neg hlo, if_pos hx]

/-- Witness for C4: at the concrete table `T5`, the lookup returns 0 at the
low boundary, at the high boundary, for an unassigned pair, and for `Z1`
out of range. -/
theorem claim4_witness :
    xToNative id F5.xunit 1 ≤ F5.xmin ∧ gsto_sto_v id id T5 1 1 1 = 0 ∧
    F5.xmax ≤ xToNative id F5.xunit 3 ∧ gsto_sto_v id id T5 1 1 3 = 0 ∧
    T5.assigned 1 2 = none ∧ gsto_sto_v id id T5 1 2 2 = 0 ∧
    ((0 : Int) ≤ 0 ∨ T5.Z1_max < 0) ∧ gsto_sto_v id id T5 0 1 2 = 0 :=
  ⟨by decide,
   ((claim4_lookup_clamp id id T5 1 1 1).2.2.2 0 F5 (by decide) (by decide)).1 (by decide),
   by decide,
   ((claim4_lookup_clamp id id T5 1 1 3).2.2.2 0 F5 (by decide) (by decide)).2 (by decide),
   by decide, (claim4_lookup_clamp id id T5 1 2 2).2.2.1 (by decide),
   by decide, (claim4_lookup_clamp id id T5 0 1 2).1 (by decide)⟩

/-- C5 counterexample: at the boundary grid point `x = xmin` of the assigned
source (grid index 0), the lookup returns 0, not the stored table value 5 —
the open-interval clamp of `gsto_sto_v` fires before interpolation, so the
claim fails at the first and last grid points. -/
theorem claim5_counterexample :
    gridX F5 0 = F5.xmin ∧ T5.assigned 1 1 = some 0 ∧
    gsto_sto_v id id T5 1 1 (gridX F5 0) = 0 ∧ T5.ele 1 1 0 = 5 ∧ (0 : ℚ) ≠ 5 := by
  refine ⟨by norm_num [gridX, F5], by decide, ?_, by decide, by norm_num⟩
  norm_num [gridX, gsto_sto_v, F5, T5, xToNative]

/-- C5 (amended): for an assigned pair and a query whose converted position
lies strictly inside `(xmin, xmax)`, the lookup at an interior grid point
(fractional index exactly the integer `k`) returns exactly the stored value
at `k`, for any x-scale map `lg` (identity = linear, log10 = log10 scale);
between grid points the result is the linear interpolation of the two
bracketing stored values — linear in the looked-up value, the scale map
entering only through the fractional index. -/
theorem claim5_interior_interp (conv lg : ℚ → ℚ) (t : GTable) (Z1 Z2 : Int) (v : ℚ)
    (fi : Nat) (f : GFile) (k : Int)
    (hZ1 : 0 < Z1) (hZ1m : Z1 ≤ t.Z1_max) (hZ2 : 0 < Z2) (hZ2m : Z2 ≤ t.Z2_max)
    (hass : t.assigned Z1 Z2 = some fi) (hfile : t.files[fi]? = some f)
    (hlo : f.xmin < xToNative conv f.xunit v) (hhi : xToNative conv f.xunit v < f.xmax) :
    (iFloat lg f (xToNative conv f.xunit v) = (k : ℚ) →
       gsto_sto_v conv lg t Z1 Z2 v = t.ele Z1 Z2 k)
    ∧ ((k : ℚ) ≤ iFloat lg f (xToNative conv f.xunit v) →
       iFloat lg f (xToNative conv f.xunit v) < (k : ℚ) + 1 →
       gsto_sto_v conv lg t Z1 Z2 v =
         t.ele Z1 Z2 k + (iFloat lg f (xToNative conv f.xunit v) - (k : ℚ)) *
           (t.ele Z1 Z2 (k + 1) - t.ele Z1 Z2 k)) := by
  have h1 : ¬(Z1 ≤ 0 ∨ t.Z1_max < Z1) := by push_neg; exact ⟨hZ1, hZ1m⟩
  have h2 : ¬(Z2 ≤ 0 ∨ t.Z2_max < Z2) := by push_neg; exact ⟨hZ2, hZ2m⟩
  have key : gsto_sto_v conv lg t Z1 Z2 v =
      (t.ele Z1 Z2 (⌊iFloat lg f (xToNative conv f.xunit v)⌋ + 1) -
        t.ele Z1 Z2 ⌊iFloat lg f (xToNative conv f.xunit v)⌋) *
        (iFloat lg f (xToNative conv f.xunit v) -
          (⌊iFloat lg f (xToNative conv f.xunit v)⌋ : ℚ)) +
      t.ele Z1 Z2 ⌊iFloat lg f (xToNative conv f.xunit v)⌋ := by
    rw [gsto_sto_v, if_neg h1, if_neg h2, hass]
    simp only [hfile]
    rw [if_neg (not_le.mpr hlo), if_neg (not_le.mpr hhi)]
  constructor
  · intro hk
    rw [key, hk, Int.floor_intCast]
    ring
  · intro hk1 hk2
    have hfl : ⌊iFloat lg f (xToNative conv f.xunit v)⌋ = k :=
      Int.floor_eq_iff.mpr ⟨hk1, hk2⟩
    rw [key, hfl]
    ring

/-- Witness for C5 (amended): at the interior grid point `v = 2` of `T5`
(fractional index exactly 1), the lookup returns the stored value 5. -/
theorem claim5_witness :
    T5.assigned 1 1 = some 0 ∧ F5.xmin < xToNative id F5.xunit 2 ∧
    xToNative id F5.xunit 2 < F5.xmax ∧
    iFloat id F5 (xToNative id F5.xunit 2) = ((1 : Int) : ℚ) ∧
    gsto_sto_v id id T5 1 1 2 = T5.ele 1 1 1 :=
  ⟨by decide, by decide, by decide, by norm_num [iFloat, F5, xToNative],
   (claim5_interior_interp id id T5 1 1 2 0 F5 1 (by decide) (by decide) (by decide)
      (by decide) (by decide) (by decide) (by decide) (by decide)).1
     (by norm_num [iFloat, F5, xToNative])⟩

/-- The concrete isotope table for C9: two isotopes of `Z = 1` with mass
numbers 1 and 2, masses 2 and 3, abundances 3/4 and 1/4. -/
def isoT9 : List IsotopeRec := [⟨0, 1, 1, 2, 3 / 4⟩, ⟨1, 1, 2, 3, 1 / 4⟩]

/-- C9: `find_mass` called with `A = 0` returns 0, not the abundance-weighted
average mass 9/4 — the accumulation branch tests `isotope->A == 0` (the
record's mass number) instead of the argument `A`, so for a table whose
isotopes all have positive mass numbers nothing is ever accumulated,
contradicting the function's own comment
`/* if A=0 calculate average mass, otherwise return isotope mass */`. -/
theorem claim9_average_mass_bug :
    find_mass isoT9 1 0 = 0 ∧ average_mass_spec isoT9 1 = 9 / 4 ∧ (0 : ℚ) ≠ 9 / 4 := by
  refine ⟨by norm_num [find_mass, find_massGo, isoT9], ?_, by norm_num⟩
  norm_num [average_mass_spec, isoT9, List.filter]

/-! ## Lemmas on the integrator loops -/

/-- What an accepted sub-step of the inner refinement loop satisfies: `s1`
is the stopping at the incoming energy, `s2` the stopping at the trial
energy over the (possibly halved) step, the accepted step is the entry step
divided by a power of two (one halving per rejection), and the relative
change passed the tolerance test. -/
lemma innerLoop_ok_spec {f : ℚ → ℚ → ℚ} {E d : ℚ} :
    ∀ {n : Nat} {dstep t1 t2 st : ℚ},
      innerLoop f E d dstep n = InnerRes.ok t1 t2 st →
      t1 = f E d ∧ t2 = f (E - t1 * st) (d + st) ∧
        (∃ k : Nat, st = dstep / 2 ^ k) ∧ |t2 - t1| / t1 ≤ MAXSTOCHANGE := by
  intro n
  induction n with
  | zero => intro dstep t1 t2 st h; exact absurd h (by simp [innerLoop])
  | succ m ih =>
    intro dstep t1 t2 st h
    rw [innerLoop] at h
    by_cases hsat : E < f E d * dstep
    · rw [if_pos hsat] at h
      exact absurd h (by simp)
    · rw [if_neg hsat] at h
      by_cases hr : MAXSTOCHANGE < |f (E - f E d * dstep) (d + dstep) - f E d| / f E d
      · rw [if_pos hr] at h
        obtain ⟨h1, h2, ⟨k, hk⟩, h4⟩ := ih h
        exact ⟨h1, h2, ⟨k + 1, by rw [hk]; ring⟩, h4⟩
      · rw [if_neg hr] at h
        obtain ⟨rfl, rfl, rfl⟩ : t1 = f E d ∧ t2 = f (E - f E d * dstep) (d + dstep)
            ∧ st = dstep := by
          cases h; exact ⟨rfl, rfl, rfl⟩
        exact ⟨rfl, rfl, ⟨0, by norm_num⟩, le_of_not_lt hr⟩

/-- An accepted step is at most the entry step (for a nonnegative entry
step) and is nonnegative. -/
lemma innerLoop_ok_step_le {f : ℚ → ℚ → ℚ} {E d dstep t1 t2 st : ℚ} {n : Nat}
    (h : innerLoop f E d dstep n = InnerRes.ok t1 t2 st) (hd : 0 ≤ dstep) :
    0 ≤ st ∧ st ≤ dstep := by
  obtain ⟨-, -, ⟨k, rfl⟩, -⟩ := innerLoop_ok_spec h
  constructor
  · positivity
  · exact div_le_self hd (one_le_pow₀ (by norm_num))

/-- Nonnegativity invariant of the outer loop: with a nonnegative stopping
function, nonnegative accumulated loss and last stopping pair, a nonnegative
step, and the depth not yet past `dmax`, every value the loop returns is
nonnegative. -/
lemma outerLoop_nonneg {f : ℚ → ℚ → ℚ} (hf : ∀ a b, 0 ≤ f a b) {E dmax : ℚ} {nIn : Nat} :
    ∀ {nOut : Nat} {d dstep dE s1 s2 res : ℚ},
      0 ≤ dE → 0 ≤ dstep → d ≤ dmax → 0 ≤ s1 → 0 ≤ s2 →
      outerLoop f E dmax nIn d dstep dE s1 s2 nOut = some res → 0 ≤ res := by
  intro nOut
  induction nOut with
  | zero => intro d dstep dE s1 s2 res _ _ _ _ _ h; exact absurd h (by simp [outerLoop])
  | succ m ih =>
    intro d dstep dE s1 s2 res hdE hdstep hdmax hs1 hs2 h
    rw [outerLoop] at h
    by_cases hc : dstep ≤ dmax - d
    · rw [if_pos hc] at h
      cases hin : innerLoop f E d dstep nIn with
      | sat => rw [hin] at h; cases h; norm_num
      | fuelOut => rw [hin] at h; exact absurd h (by simp)
      | ok t1 t2 st =>
        rw [hin] at h
        obtain ⟨ht1, ht2, -, -⟩ := innerLoop_ok_spec hin
        obtain ⟨hst0, hstle⟩ := innerLoop_ok_step_le hin hdstep
        have h1 : 0 ≤ t1 := ht1 ▸ hf E d
        have h2 : 0 ≤ t2 := ht2 ▸ hf _ _
        refine ih ?_ hst0 (by linarith) h1 h2 h
        have : 0 ≤ (t1 + t2) * st / 2 := by positivity
        linarith
    · rw [if_neg hc] at h
      cases h
      have : 0 ≤ (dmax - d) * (s1 + s2) / 2 := by
        have hd : 0 ≤ dmax - d := by linarith
        positivity
      linarith

/-- With a nonnegative stopping function and nonnegative depth and path
increment, `get_eloss` never returns a negative energy loss. -/
lemma get_eloss_nonneg {f : ℚ → ℚ → ℚ} (hf : ∀ a b, 0 ≤ f a b) {E d deltad res : ℚ}
    {nIn nOut : Nat} (hd : 0 ≤ d) (hdd : 0 ≤ deltad)
    (h : get_eloss f E d deltad nIn nOut = some res) : 0 ≤ res := by
  rw [get_eloss] at h
  by_cases hE : E ≤ 0
  · rw [if_pos hE] at h; cases h; norm_num
  · rw [if_neg hE] at h
    refine outerLoop_nonneg hf le_rfl hdd ?_ le_rfl le_rfl h
    nlinarith

/-- C1: edge cases of `get_eloss` — zero or negative incoming energy
returns exactly 0 without integrating (for every stopping function); if at
any sub-step the saturation check `E < s1·step` fires in the inner loop, the
remainder of the call returns 0 regardless of the loss already accumulated;
in particular with a huge constant stopping whose first trial step exceeds
`E`, the whole call returns 0; and the returned loss is never negative (for
a nonnegative stopping function and nonnegative geometry). -/
theorem claim1_eloss_edge_cases (f : ℚ → ℚ → ℚ) (E d deltad : ℚ) (nIn nOut : Nat) :
    (E ≤ 0 → get_eloss f E d deltad nIn nOut = some 0)
    ∧ (∀ dmax d' dstep dE s1 s2 : ℚ, ∀ m : Nat,
        innerLoop f E d' dstep nIn = InnerRes.sat → dstep ≤ dmax - d' →
        outerLoop f E dmax nIn d' dstep dE s1 s2 (m + 1) = some 0)
    ∧ (∀ c : ℚ, 0 < E → 0 ≤ d → 0 ≤ deltad → E < c * deltad →
        get_eloss (fun _ _ => c) E d deltad (nIn + 1) (nOut + 1) = some 0)
    ∧ ((∀ a b, 0 ≤ f a b) → 0 ≤ d → 0 ≤ deltad →
        ∀ res, get_eloss f E d deltad nIn nOut = some res → 0 ≤ res) := by
  refine ⟨fun hE => by rw [get_eloss, if_pos hE], ?_, ?_, ?_⟩
  · intro dmax d' dstep dE s1 s2 m hsat hc
    rw [outerLoop, if_pos hc, hsat]
  · intro c hE hd hdd hsat
    rw [get_eloss, if_neg (not_le.mpr hE), outerLoop, if_pos (by nlinarith), innerLoop]
    simp only
    rw [if_pos hsat]
  · intro hf hd hdd res h
    exact get_eloss_nonneg hf hd hdd h

/-- The accepted sub-steps recorded in a trace. -/
def TraceRes.steps : TraceRes → List (ℚ × ℚ × ℚ)
  | .sat steps => steps
  | .done steps _ _ _ => steps

/-- `steps` of a prepended trace. -/
lemma TraceRes.steps_cons (t : ℚ × ℚ × ℚ) (tr : TraceRes) :
    (TraceRes.cons t tr).steps = t :: tr.steps := by
  cases tr <;> rfl

/-- `trapSum` of a prepended sub-step. -/
lemma trapSum_cons (t : ℚ × ℚ × ℚ) (L : List (ℚ × ℚ × ℚ)) :
    trapSum (t :: L) = (t.1 + t.2.1) * t.2.2 / 2 + trapSum L := by
  simp [trapSum]

/-- `stepSum` of a prepended sub-step. -/
lemma stepSum_cons (t : ℚ × ℚ × ℚ) (L : List (ℚ × ℚ × ℚ)) :
    stepSum (t :: L) = t.2.2 + stepSum L := by
  simp [stepSum]

/-- `outerLoop` is the instrumented loop with the trace folded back into the
accumulated loss: a saturated trace yields 0, a normal trace yields the
accumulator plus the trapezoid sum plus the final partial remainder closed
with the last `(s1, s2)` pair in scope. -/
lemma outerLoop_eq_outerTr {f : ℚ → ℚ → ℚ} {E dmax : ℚ} {nIn : Nat} :
    ∀ {nOut : Nat} {d dstep dE s1 s2 : ℚ},
      outerLoop f E dmax nIn d dstep dE s1 s2 nOut =
        (outerTr f E dmax nIn d dstep s1 s2 nOut).map (fun tr =>
          match tr with
          | .sat _ => 0
          | .done L dF l1 l2 => dE + trapSum L + (dmax - dF) * (l1 + l2) / 2) := by
  intro nOut
  induction nOut with
  | zero => intro d dstep dE s1 s2; simp [outerLoop, outerTr]
  | succ m ih =>
    intro d dstep dE s1 s2
    rw [outerLoop, outerTr]
    by_cases hc : dstep ≤ dmax - d
    · rw [if_pos hc, if_pos hc]
      cases hin : innerLoop f E d dstep nIn with
      | sat => simp
      | fuelOut => simp
      | ok t1 t2 st =>
        simp only [ih, Option.map_map]
        apply Option.map_congr
        intro tr _
        cases tr with
        | sat L => simp [TraceRes.cons]
        | done L dF l1 l2 =>
          simp only [Function.comp_apply, TraceRes.cons]
          rw [trapSum_cons]
          ring
    · rw [if_neg hc, if_neg hc]
      simp only [Option.map_some']
      congr 1
      simp [trapSum]

/-- The step sizes of a trace, prefixed with the entry step, form a chain in
which each entry is the previous one divided by a power of two (one halving
per rejected refinement round): within a call the sub-step only shrinks. -/
lemma outerTr_chain {f : ℚ → ℚ → ℚ} {E dmax : ℚ} {nIn : Nat} :
    ∀ {nOut : Nat} {d dstep s1 s2 : ℚ} {tr : TraceRes},
      outerTr f E dmax nIn d dstep s1 s2 nOut = some tr →
      List.Chain' (fun a b => ∃ k : Nat, b = a / 2 ^ k)
        (dstep :: tr.steps.map (fun t => t.2.2)) := by
  intro nOut
  induction nOut with
  | zero => intro d dstep s1 s2 tr h; exact absurd h (by simp [outerTr])
  | succ m ih =>
    intro d dstep s1 s2 tr h
    rw [outerTr] at h
    by_cases hc : dstep ≤ dmax - d
    · rw [if_pos hc] at h
      cases hin : innerLoop f E d dstep nIn with
      | sat => rw [hin] at h; cases h; simp [TraceRes.steps]
      | fuelOut => rw [hin] at h; exact absurd h (by simp)
      | ok t1 t2 st =>
        rw [hin] at h
        obtain ⟨tr', htr', rfl⟩ := Option.map_eq_some'.mp h
        rw [TraceRes.steps_cons]
        simp only [List.map_cons]
        rw [List.chain'_cons]
        obtain ⟨-, -, hpow, -⟩ := innerLoop_ok_spec hin
        exact ⟨hpow, ih htr'⟩
    · rw [if_neg hc] at h
      cases h
      simp [TraceRes.steps]

/-- Every accepted sub-step of a trace passed the relative-change tolerance
test. -/
lemma outerTr_tol {f : ℚ → ℚ → ℚ} {E dmax : ℚ} {nIn : Nat} :
    ∀ {nOut : Nat} {d dstep s1 s2 : ℚ} {tr : TraceRes},
      outerTr f E dmax nIn d dstep s1 s2 nOut = some tr →
      ∀ t ∈ tr.steps, |t.2.1 - t.1| / t.1 ≤ MAXSTOCHANGE := by
  intro nOut
  induction nOut with
  | zero => intro d dstep s1 s2 tr h; exact absurd h (by simp [outerTr])
  | succ m ih =>
    intro d dstep s1 s2 tr h
    rw [outerTr] at h
    by_cases hc : dstep ≤ dmax - d
    · rw [if_pos hc] at h
      cases hin : innerLoop f E d dstep nIn with
      | sat => rw [hin] at h; cases h; simp [TraceRes.steps]
      | fuelOut => rw [hin] at h; exact absurd h (by simp)
      | ok t1 t2 st =>
        rw [hin] at h
        obtain ⟨tr', htr', rfl⟩ := Option.map_eq_some'.mp h
        rw [TraceRes.steps_cons]
        intro t ht
        rcases List.mem_cons.mp ht with rfl | ht'
        · obtain ⟨-, -, -, htol⟩ := innerLoop_ok_spec hin
          exact htol
        · exact ih htr' t ht'
    · rw [if_neg hc] at h
      cases h
      simp [TraceRes.steps]

/-- First components of `getLastD` only depend on the default through its
first components. -/
lemma getLastD_proj_congr {L : List (ℚ × ℚ × ℚ)} {a b : ℚ × ℚ × ℚ}
    (h1 : a.1 = b.1) (h2 : a.2.1 = b.2.1) :
    (L.getLastD a).1 = (L.getLastD b).1 ∧ (L.getLastD a).2.1 = (L.getLastD b).2.1 := by
  cases L with
  | nil => exact ⟨h1, h2⟩
  | cons x xs => rw [List.getLastD_cons, List.getLastD_cons]; exact ⟨rfl, rfl⟩

/-- On normal exit, the final depth is the entry depth plus the sum of the
accepted step lengths, and the closing `(s1, s2)` pair is the one of the
last accepted sub-step (or the entry pair when no sub-step was accepted). -/
lemma outerTr_done_spec {f : ℚ → ℚ → ℚ} {E dmax : ℚ} {nIn : Nat} :
    ∀ {nOut : Nat} {d dstep s1 s2 : ℚ} {L : List (ℚ × ℚ × ℚ)} {dF l1 l2 : ℚ},
      outerTr f E dmax nIn d dstep s1 s2 nOut = some (TraceRes.done L dF l1 l2) →
      dF = d + stepSum L ∧
        l1 = (L.getLastD (s1, s2, 0)).1 ∧ l2 = (L.getLastD (s1, s2, 0)).2.1 := by
  intro nOut
  induction nOut with
  | zero => intro d dstep s1 s2 L dF l1 l2 h; exact absurd h (by simp [outerTr])
  | succ m ih =>
    intro d dstep s1 s2 L dF l1 l2 h
    rw [outerTr] at h
    by_cases hc : dstep ≤ dmax - d
    · rw [if_pos hc] at h
      cases hin : innerLoop f E d dstep nIn with
      | sat => rw [hin] at h; simp at h
      | fuelOut => rw [hin] at h; exact absurd h (by simp)
      | ok t1 t2 st =>
        rw [hin] at h
        obtain ⟨tr', htr', hcons⟩ := Option.map_eq_some'.mp h
        cases tr' with
        | sat L' => exact absurd hcons (by simp [TraceRes.cons])
        | done L' dF' l1' l2' =>
          obtain ⟨rfl, rfl, rfl, rfl⟩ :
              L = (t1, t2, st) :: L' ∧ dF = dF' ∧ l1 = l1' ∧ l2 = l2' := by
            cases hcons; exact ⟨rfl, rfl, rfl, rfl⟩
          obtain ⟨hd, hl1, hl2⟩ := ih htr'
          refine ⟨by rw [hd, stepSum_cons]; ring, ?_, ?_⟩
          · rw [hl1, List.getLastD_cons]
            exact (getLastD_proj_congr (a := (t1, t2, 0)) (b := (t1, t2, st)) rfl rfl).1
          · rw [hl2, List.getLastD_cons]
            exact (getLastD_proj_congr (a := (t1, t2, 0)) (b := (t1, t2, st)) rfl rfl).2
    · rw [if_neg hc] at h
      obtain ⟨rfl, rfl, rfl, rfl⟩ :
          L = [] ∧ dF = d ∧ l1 = s1 ∧ l2 = s2 := by
        cases h; exact ⟨rfl, rfl, rfl, rfl⟩
      exact ⟨by simp [stepSum], rfl, rfl⟩

/-- A pow-of-two-division chain starting at a nonnegative head is a
non-increasing chain. -/
lemma chain_pow2_ge {a : ℚ} {l : List ℚ} (ha : 0 ≤ a)
    (h : List.Chain' (fun x y => ∃ k : Nat, y = x / 2 ^ k) (a :: l)) :
    List.Chain' (· ≥ ·) (a :: l) := by
  induction l generalizing a with
  | nil => simp
  | cons b t ih =>
    rw [List.chain'_cons] at h ⊢
    obtain ⟨⟨k, rfl⟩, h2⟩ := h
    have hb : (0 : ℚ) ≤ a / 2 ^ k := by positivity
    exact ⟨div_le_self ha (one_le_pow₀ (by norm_num)), ih hb h2⟩

/-- C2: within one `get_eloss` call the accepted sub-step sizes only shrink
(each entry of the step chain is the previous one divided by `2^k`, `k` the
number of rejections of that refinement round, so for a nonnegative entry
step the sizes are non-increasing); every accepted sub-step satisfies the
relative-change tolerance `|s2−s1|/s1 ≤ MAXSTOCHANGE` and the returned loss
is exactly the sum of the trapezoids `0.5·(s1+s2)·step` plus one final
trapezoidal application of the last accepted `(s1, s2)` pair over the
partial remainder `dmax − dFin`, with no further tolerance check; a
saturated traversal returns 0. -/
theorem claim2_substep_discipline (f : ℚ → ℚ → ℚ) (E d deltad : ℚ) (nIn nOut : Nat)
    (hE : 0 < E) (tr : TraceRes)
    (htr : outerTr f E ((d + deltad) * (1000001 / 1000000)) nIn d deltad 0 0 nOut =
      some tr) :
    List.Chain' (fun a b => ∃ k : Nat, b = a / 2 ^ k)
      (deltad :: tr.steps.map (fun t => t.2.2))
    ∧ (0 ≤ deltad → List.Chain' (· ≥ ·) (deltad :: tr.steps.map (fun t => t.2.2)))
    ∧ (∀ t ∈ tr.steps, |t.2.1 - t.1| / t.1 ≤ MAXSTOCHANGE)
    ∧ (∀ L dF l1 l2, tr = TraceRes.done L dF l1 l2 →
        get_eloss f E d deltad nIn nOut =
          some (trapSum L + ((d + deltad) * (1000001 / 1000000) - dF) * (l1 + l2) / 2)
        ∧ dF = d + stepSum L
        ∧ l1 = (L.getLastD (0, 0, 0)).1 ∧ l2 = (L.getLastD (0, 0, 0)).2.1)
    ∧ (∀ L, tr = TraceRes.sat L → get_eloss f E d deltad nIn nOut = some 0) := by
  have hloss : get_eloss f E d deltad nIn nOut =
      (outerTr f E ((d + deltad) * (1000001 / 1000000)) nIn d deltad 0 0 nOut).map
        (fun t =>
          match t with
          | .sat _ => 0
          | .done L dF l1 l2 =>
            0 + trapSum L + ((d + deltad) * (1000001 / 1000000) - dF) * (l1 + l2) / 2) := by
    rw [get_eloss, if_neg (not_le.mpr hE), outerLoop_eq_outerTr]
  refine ⟨outerTr_chain htr, fun hdd => chain_pow2_ge hdd (outerTr_chain htr),
    outerTr_tol htr, ?_, ?_⟩
  · intro L dF l1 l2 hdone
    subst hdone
    obtain ⟨h1, h2, h3⟩ := outerTr_done_spec htr
    refine ⟨?_, h1, h2, h3⟩
    rw [hloss, htr]
    simp only [Option.map_some']
    congr 1
    ring
  · intro L hsat
    subst hsat
    rw [hloss, htr]
    rfl

/-- Witness for C2: with unit constant stopping over a unit step from the
surface, one sub-step of size 1 is accepted and the remainder
`0.000001` is closed with the same pair; the claim2 conclusions evaluate at
this trace. -/
theorem claim2_witness :
    0 < (1 : ℚ) ∧
    outerTr (fun _ _ => (1 : ℚ)) 1 ((0 + 1) * (1000001 / 1000000)) 2 0 1 0 0 3 =
      some (TraceRes.done [(1, 1, 1)] 1 1 1) ∧
    get_eloss (fun _ _ => (1 : ℚ)) 1 0 1 2 3 =
      some (trapSum [(1, 1, 1)] + ((0 + 1) * (1000001 / 1000000) - 1) * (1 + 1) / 2) :=
  ⟨by norm_num,
   by norm_num [outerTr, innerLoop, TraceRes.cons, MAXSTOCHANGE],
   (claim2_substep_discipline (fun _ _ => (1 : ℚ)) 1 0 1 2 3 (by norm_num)
      (TraceRes.done [(1, 1, 1)] 1 1 1)
      (by norm_num [outerTr, innerLoop, TraceRes.cons, MAXSTOCHANGE])).2.2.2.1
     [(1, 1, 1)] 1 1 1 rfl |>.1⟩

/-- Witness for C1 at concrete inputs: negative energy gives zero loss, and
with `E = 1` and constant stopping 1000 over a unit step the saturation rule
returns 0. -/
theorem claim1_witness :
    ((-1 : ℚ) ≤ 0 ∧ get_eloss (fun _ _ => (5 : ℚ)) (-1) 0 1 3 3 = some 0)
    ∧ (0 < (1 : ℚ) ∧ 0 ≤ (0 : ℚ) ∧ 0 ≤ (1 : ℚ) ∧ (1 : ℚ) < 1000 * 1 ∧
       get_eloss (fun _ _ => (1000 : ℚ)) 1 0 1 3 3 = some 0) :=
  ⟨⟨by norm_num, (claim1_eloss_edge_cases (fun _ _ => (5 : ℚ)) (-1) 0 1 3 3).1 (by norm_num)⟩,
   ⟨by norm_num, by norm_num, by norm_num, by norm_num,
    (claim1_eloss_edge_cases (fun _ _ => (1000 : ℚ)) 1 0 1 2 2).2.2.1 1000
      (by norm_num) (by norm_num) (by norm_num) (by norm_num)⟩⟩

/-! ## C6: the beam-energy table -/

/-- A successful `primLoop` with at least one remaining bin starts its
output with the current energy. -/
lemma primLoop_head {f : ℚ → ℚ → ℚ} {dstep dmult : ℚ} {nIn nOut : Nat}
    {E d : ℚ} {n : Nat} {L : List ℚ}
    (h : primLoop f dstep dmult nIn nOut E d (n + 1) = some L) :
    ∃ L', L = E :: L' := by
  rw [primLoop] at h
  cases hdE : get_eloss f E d (dstep * dmult) nIn nOut with
  | none => rw [hdE] at h; exact absurd h (by simp)
  | some dE =>
    rw [hdE] at h
    obtain ⟨L', -, rfl⟩ := Option.map_eq_some'.mp h
    exact ⟨L', rfl⟩

/-- With a nonnegative stopping function and nonnegative step geometry, the
energies written by `primLoop` are non-increasing. -/
lemma primLoop_chain {f : ℚ → ℚ → ℚ} {dstep dmult : ℚ} {nIn nOut : Nat}
    (hf : ∀ a b, 0 ≤ f a b) (hds : 0 ≤ dstep) (hdm : 0 ≤ dmult) :
    ∀ {n : Nat} {E d : ℚ} {L : List ℚ}, 0 ≤ d →
      primLoop f dstep dmult nIn nOut E d n = some L →
      List.Chain' (· ≥ ·) L := by
  intro n
  induction n with
  | zero =>
    intro E d L _ h
    obtain rfl : L = [] := by rw [primLoop] at h; cases h; rfl
    simp
  | succ m ih =>
    intro E d L hd h
    rw [primLoop] at h
    cases hdE : get_eloss f E d (dstep * dmult) nIn nOut with
    | none => rw [hdE] at h; exact absurd h (by simp)
    | some dE =>
      rw [hdE] at h
      obtain ⟨L', hL', rfl⟩ := Option.map_eq_some'.mp h
      have hchain : List.Chain' (· ≥ ·) L' := ih (by linarith) hL'
      have hnn : 0 ≤ dE := get_eloss_nonneg hf hd (by positivity) hdE
      cases m with
      | zero =>
        obtain rfl : L' = [] := by rw [primLoop] at hL'; cases hL'; rfl
        simp
      | succ m' =>
        obtain ⟨L'', rfl⟩ := primLoop_head hL'
        exact List.Chain'.cons (by linarith) hchain

/-- The constant huge stopping function used for the C6 counterexample. -/
def hugeSto : ℚ → ℚ → ℚ := fun _ _ => 1000

/-- C6 counterexample: with beam energy 1 and a constant stopping of 1000,
the integrator saturates at every bin (`E < s1·step`), each `get_eloss`
returns 0, and `calculate_primary_energy` produces the constant table
`[1, 1, 1]` — which is not strictly decreasing, refuting the claim as
stated. -/
theorem claim6_counterexample :
    calculate_primary_energy hugeSto 1 1 1 3 1 3 = some [1, 1, 1] ∧
    ¬ strictlyDecr [1, 1, 1] := by
  constructor
  · norm_num [calculate_primary_energy, primLoop, get_eloss, outerLoop, innerLoop,
      hugeSto, Option.map]
  · intro h
    rw [strictlyDecr, List.chain'_cons] at h
    exact absurd h.1 (by norm_num)

/-- C6 (amended): for a nonnegative stopping function and nonnegative step
geometry, the beam-energy table produced by `calculate_primary_energy` is
non-increasing with depth (consecutive bins satisfy
`Ebeam[id+1] ≤ Ebeam[id]`; bins where the integrator returns zero loss —
saturation, exhausted energy, or zero stopping — are equal, so the table
need not be strictly decreasing), and it starts from the beam energy at
depth 0. -/
theorem claim6_nonincreasing (f : ℚ → ℚ → ℚ) (E0 dstep dmult : ℚ)
    (maxdstep nIn nOut : Nat) (L : List ℚ)
    (hf : ∀ a b, 0 ≤ f a b) (hds : 0 ≤ dstep) (hdm : 0 ≤ dmult)
    (h : calculate_primary_energy f E0 dstep dmult maxdstep nIn nOut = some L) :
    List.Chain' (· ≥ ·) L ∧ (0 < maxdstep → L.head? = some E0) := by
  rw [calculate_primary_energy] at h
  refine ⟨primLoop_chain hf hds hdm le_rfl h, ?_⟩
  intro hpos
  obtain ⟨m, rfl⟩ : ∃ m, maxdstep = m + 1 := ⟨maxdstep - 1, by omega⟩
  obtain ⟨L', rfl⟩ := primLoop_head h
  rfl

/-- The identically-zero stopping function. -/
def zeroSto : ℚ → ℚ → ℚ := fun _ _ => 0

/-- Witness for C6 (amended): with zero stopping the beam-energy table over
two bins is the constant `[1, 1]`, non-increasing and headed by the beam
energy. -/
theorem claim6_witness :
    (∀ a b, 0 ≤ zeroSto a b) ∧ 0 ≤ (1 : ℚ) ∧
    calculate_primary_energy zeroSto 1 1 1 2 2 3 = some [1, 1] ∧
    List.Chain' (· ≥ ·) [(1 : ℚ), 1] ∧ (0 < 2 → [(1 : ℚ), 1].head? = some 1) :=
  ⟨fun a b => le_refl 0, by norm_num,
   by norm_num [calculate_primary_energy, primLoop, get_eloss, outerLoop, innerLoop,
     zeroSto, MAXSTOCHANGE, Option.map],
   (claim6_nonincreasing zeroSto 1 1 1 2 2 3 [1, 1] (fun a b => le_refl 0)
      (by norm_num) (by norm_num)
      (by norm_num [calculate_primary_energy, primLoop, get_eloss, outerLoop, innerLoop,
        zeroSto, MAXSTOCHANGE, Option.map])).1,
   (claim6_nonincreasing zeroSto 1 1 1 2 2 3 [1, 1] (fun a b => le_refl 0)
      (by norm_num) (by norm_num)
      (by norm_num [calculate_primary_energy, primLoop, get_eloss, outerLoop, innerLoop,
        zeroSto, MAXSTOCHANGE, Option.map])).2⟩

/-! ## C7: the state entering the first iteration -/

/-- A fully parsed line (`c = 8`) replaces all eight stale values. -/
lemma mergeFields_full (old new : RawFields) : mergeFields old new 8 = new := by
  cases new
  simp [mergeFields]

/-- `(int)(0.0/dstep)` is 0. -/
lemma cTrunc_zero : cTrunc 0 = 0 := by
  norm_num [cTrunc]

/-- Abstract square root placeholder for concrete runs (only the `vmax`
bookkeeping uses it). -/
def sqZero : ℚ → ℚ := fun _ => 0

/-- Arbitrary initial values of the uninitialised `sscanf` stack
variables. -/
def raw7 : RawFields := ⟨0, 0, 0, 1, 1, TypeTok.erd, 0, 0⟩

/-- One fully parsed ERD event line: `0 0 1.0 7 14.0 ERD 1.0 1`. -/
def l7 : InLine := ⟨8, ⟨0, 0, 1, 7, 14, TypeTok.erd, 1, 1⟩⟩

/-- The state `read_events` starts from in `main` (after `clear_conc`). -/
def reInit : REState :=
  ⟨[], clear_conc, [], fun _ => 0, fun _ _ => 0, fun _ => 0, 0, false⟩

/-- C7 counterexample: reading a single valid ERD event (with beam mass 0
for simplicity) deposits its computed weight `1/49` into depth bin 0 of the
concentration table before the first iteration's primary-energy computation
— the state entering the iteration loop is not all-zero. -/
theorem claim7_counterexample :
    finalW0 (read_events sqZero 0 0 100 0 5 raw7 [l7]) 7 = 1 / 49 ∧ (1 / 49 : ℚ) ≠ 0 := by
  constructor
  · norm_num [read_events, read_events_go, mergeFields, concAdd, clear_conc, cTrunc,
      finalW0, l7, raw7, sqZero, C_U]
  · norm_num

/-- C7 (amended): `clear_conc` does produce the all-zero state, but
`read_events` — which runs before the first iteration — adds each event's
initial weight `w/(Z·(1+M_beam/M))²` into depth bin 0 (every event's depth
starts at 0, so `k = (int)(0/dstep) = 0`), incrementing the event list; the
state from which the first iteration's primary-energy computation starts
therefore has nonzero surface-bin weight for any nonempty event list. -/
theorem claim7_seed_state :
    (∀ Z k, clear_conc.w Z k = 0 ∧ clear_conc.n Z k = 0 ∧
      clear_conc.wsum k = 0 ∧ clear_conc.nsum k = 0)
    ∧ (∀ (sq : ℚ → ℚ) (detAngle measM dstep : ℚ) (maxev : Nat) (ln : InLine)
        (prev : RawFields) (i : Nat) (st : REState),
        i < maxev → ln.c = 8 → ln.f.ty = TypeTok.erd →
        ∃ st', read_events_go sq detAngle measM dstep maxev [ln] prev i st = Except.ok st'
          ∧ st'.conc.w ln.f.Z 0 =
              st.conc.w ln.f.Z 0 +
                ln.f.w / ((ln.f.Z : ℚ) * (1 + measM / (ln.f.M * C_U))) ^ 2
          ∧ st'.conc.wsum 0 =
              st.conc.wsum 0 +
                ln.f.w / ((ln.f.Z : ℚ) * (1 + measM / (ln.f.M * C_U))) ^ 2
          ∧ st'.events.length = st.events.length + 1) := by
  constructor
  · intro Z k
    exact ⟨rfl, rfl, rfl, rfl⟩
  · intro sq detAngle measM dstep maxev ln prev i st hi hc8 hty
    obtain ⟨c, lf⟩ := ln
    simp only at hc8 hty
    subst hc8
    simp only [read_events_go, mergeFields_full, hty, hi, if_true, ne_eq,
      not_true_eq_false, if_false, ite_false, ite_true]
    refine ⟨_, rfl, ?_, ?_, ?_⟩
    · simp [concAdd, cTrunc_zero]
    · simp [concAdd, cTrunc_zero]
    · simp

/-- Witness for C7 (amended): the step lemma applied to the concrete line
`l7` from the cleared initial state. -/
theorem claim7_witness :
    (0 : Nat) < 5 ∧ l7.c = 8 ∧ l7.f.ty = TypeTok.erd ∧
    ∃ st', read_events_go sqZero 0 0 100 5 [l7] raw7 0 reInit = Except.ok st'
      ∧ st'.conc.w l7.f.Z 0 =
          reInit.conc.w l7.f.Z 0 + l7.f.w / ((l7.f.Z : ℚ) * (1 + 0 / (l7.f.M * C_U))) ^ 2
      ∧ st'.conc.wsum 0 =
          reInit.conc.wsum 0 + l7.f.w / ((l7.f.Z : ℚ) * (1 + 0 / (l7.f.M * C_U))) ^ 2
      ∧ st'.events.length = reInit.events.length + 1 :=
  ⟨by norm_num, by decide, by decide,
   claim7_seed_state.2 sqZero 0 0 100 5 l7 raw7 0 reInit (by norm_num) (by decide)
     (by decide)⟩

/-! ## C8: non-fatal malformed lines and truncation -/

/-- Every line of the input leaves the (possibly stale) event-type buffer
holding ERD or RBS — the condition under which `read_events` never reaches
its `exit(2)`. -/
def typesOk : List InLine → RawFields → Bool
  | [], _ => true
  | ln :: rest, prev =>
    let fl := mergeFields prev ln.f ln.c
    decide (fl.ty ≠ TypeTok.other) && typesOk rest fl

/-- The line numbers of the `"Problems at input line"` diagnostics the loop
emits: one per malformed line (`c ≠ 8`) among the lines it actually
consumes (`fuel` many). -/
def badLineNos : List InLine → Nat → Nat → List Nat
  | [], _, _ => []
  | _ :: _, 0, _ => []
  | ln :: rest, Nat.succ fuel, j =>
    (if ln.c ≠ 8 then [j] else []) ++ badLineNos rest fuel (j + 1)

/-- The `read_events` loop under `typesOk`: it never aborts, reads at most
`maxev - i` further events, truncates (with the `"Too many events"`
diagnostic) exactly when more lines remain, and logs one diagnostic per
malformed consumed line. -/
lemma read_events_go_ok (sq : ℚ → ℚ) (detAngle measM dstep : ℚ) (maxev : Nat) :
    ∀ (lines : List InLine) (prev : RawFields) (i : Nat) (st : REState),
      i ≤ maxev →
      typesOk lines prev = true →
      ∃ st', read_events_go sq detAngle measM dstep maxev lines prev i st = Except.ok st'
        ∧ st'.events.length = st.events.length + min lines.length (maxev - i)
        ∧ (st'.truncated = true ↔ (st.truncated = true ∨ maxev - i < lines.length))
        ∧ st'.diags = st.diags ++ badLineNos lines (maxev + 1 - i) (i + 1) := by
  intro lines
  induction lines with
  | nil =>
    intro prev i st hi _
    refine ⟨st, rfl, by simp, by simp, by simp [badLineNos]⟩
  | cons ln rest ih =>
    intro prev i st hi hok
    rw [typesOk, Bool.and_eq_true, decide_eq_true_eq] at hok
    obtain ⟨hty, hok'⟩ := hok
    have h1e : (if ln.c ≠ 8 then { st with diags := st.diags ++ [i + 1] } else st).events
        = st.events := by
      by_cases hc : ln.c ≠ 8 <;> simp [hc]
    have h1t : (if ln.c ≠ 8 then { st with diags := st.diags ++ [i + 1] } else st).truncated
        = st.truncated := by
      by_cases hc : ln.c ≠ 8 <;> simp [hc]
    have h1d : (if ln.c ≠ 8 then { st with diags := st.diags ++ [i + 1] } else st).diags
        = st.diags ++ (if ln.c ≠ 8 then [i + 1] else []) := by
      by_cases hc : ln.c ≠ 8 <;> simp [hc]
    by_cases hilt : i < maxev
    · rw [read_events_go]
      rw [if_pos hilt]
      cases hfty : (mergeFields prev ln.f ln.c).ty with
      | other => exact absurd hfty hty
      | erd =>
        simp only [hfty]
        obtain ⟨st', hgo, hlen, htr, hdi⟩ :=
          ih (mergeFields prev ln.f ln.c) (i + 1) _ (by omega) hok'
        refine ⟨st', hgo, ?_, ?_, ?_⟩
        · simp only [List.length_append, List.length_cons, List.length_nil, h1e] at hlen
          simp only [List.length_cons]
          omega
        · simp only [h1t] at htr
          rw [htr]
          simp only [List.length_cons]
          constructor
          · rintro (h | h)
            · exact Or.inl h
            · exact Or.inr (by omega)
          · rintro (h | h)
            · exact Or.inl h
            · exact Or.inr (by omega)
        · simp only [h1d] at hdi
          rw [hdi]
          have hsucc : maxev + 1 - i = (maxev - i - 1) + 1 + 1 := by omega
          have hsucc2 : maxev + 1 - (i + 1) = (maxev - i - 1) + 1 := by omega
          rw [hsucc2, hsucc, badLineNos, List.append_assoc]
      | rbs =>
        simp only [hfty]
        obtain ⟨st', hgo, hlen, htr, hdi⟩ :=
          ih (mergeFields prev ln.f ln.c) (i + 1) _ (by omega) hok'
        refine ⟨st', hgo, ?_, ?_, ?_⟩
        · simp only [List.length_append, List.length_cons, List.length_nil, h1e] at hlen
          simp only [List.length_cons]
          omega
        · simp only [h1t] at htr
          rw [htr]
          simp only [List.length_cons]
          constructor
          · rintro (h | h)
            · exact Or.inl h
            · exact Or.inr (by omega)
          · rintro (h | h)
            · exact Or.inl h
            · exact Or.inr (by omega)
        · simp only [h1d] at hdi
          rw [hdi]
          have hsucc : maxev + 1 - i = (maxev - i - 1) + 1 + 1 := by omega
          have hsucc2 : maxev + 1 - (i + 1) = (maxev - i - 1) + 1 := by omega
          rw [hsucc2, hsucc, badLineNos, List.append_assoc]
    · rw [read_events_go, if_neg hilt]
      have hieq : i = maxev := by omega
      refine ⟨_, rfl, ?_, ?_, ?_⟩
      · simp only [h1e]
        omega
      · simp only [h1t]
        subst hieq
        simp
      · simp only [h1d]
        have h1 : maxev + 1 - i = 1 := by omega
        rw [h1, badLineNos]
        have h0 : badLineNos rest 0 (i + 1 + 1) = [] := by
          cases rest <;> rfl
        rw [h0, List.append_nil]

/-- The ill-typed partially parsed line used for the C8 counterexample: six
of eight fields parse, and the sixth leaves the type buffer holding
something that is neither ERD nor RBS. -/
def l8 : InLine := ⟨6, ⟨1, 2, 1 / 2, 7, 14, TypeTok.other, 0, 0⟩⟩

/-- A partially parsed line whose type field reads RBS. -/
def l8b : InLine := ⟨6, ⟨1, 2, 1 / 2, 7, 14, TypeTok.rbs, 0, 0⟩⟩

/-- C8 counterexample: a malformed line (only 6 of the 8 fields parse) whose
sixth field leaves the type buffer holding neither ERD nor RBS makes
`read_events` abort the whole run via `exit(2)` — the claim that a
malformed line never aborts the read fails. -/
theorem claim8_counterexample :
    l8.c ≠ 8 ∧ read_events sqZero 0 0 100 0 5 raw7 [l7, l8] = Except.error 2 := by
  constructor
  · decide
  · rfl

/-- C8 (amended): when every line leaves the (possibly stale) type buffer
holding ERD or RBS, `read_events` never aborts: malformed lines only add a
`"Problems at input line"` diagnostic (one per malformed consumed line, with
its 1-based line number) while the read continues, and an event list longer
than the configured maximum is truncated at the maximum, with the
`"Too many events"` diagnostic, the events already read being kept. -/
theorem claim8_nonfatal (sq : ℚ → ℚ) (detAngle measM dstep vmax0 : ℚ) (maxevents : Nat)
    (raw0 : RawFields) (lines : List InLine)
    (hok : typesOk lines raw0 = true) :
    ∃ st, read_events sq detAngle measM dstep vmax0 maxevents raw0 lines = Except.ok st
      ∧ st.events.length = min lines.length maxevents
      ∧ (st.truncated = true ↔ maxevents < lines.length)
      ∧ st.diags = badLineNos lines (maxevents + 1) 1 := by
  obtain ⟨st, hgo, hlen, htr, hdi⟩ :=
    read_events_go_ok sq detAngle measM dstep maxevents lines raw0 0
      { events := [], conc := clear_conc, diags := [],
        elementCnt := fun _ => 0, nuclideCnt := fun _ _ => 0, elemM := fun _ => 0,
        vmax := vmax0, truncated := false }
      (Nat.zero_le maxevents) hok
  refine ⟨st, hgo, ?_, ?_, ?_⟩
  · simpa using hlen
  · rw [htr]
    simp
  · simpa using hdi

/-- Witness for C8 (amended): two type-correct lines, the second malformed,
with a maximum of one event: the read succeeds, keeps one event, reports
truncation, and logs the malformed line. -/
theorem claim8_witness :
    typesOk [l7, l8b] raw7 = true ∧
    ∃ st, read_events sqZero 0 0 100 0 1 raw7 [l7, l8b] = Except.ok st
      ∧ st.events.length = min [l7, l8b].length 1
      ∧ (st.truncated = true ↔ 1 < [l7, l8b].length)
      ∧ st.diags = badLineNos [l7, l8b] (1 + 1) 1 :=
  ⟨by decide, claim8_nonfatal sqZero 0 0 100 0 1 raw7 [l7, l8b] (by decide)⟩

/-! ## C10: `Ebeam` access bounds in the recoil-depth walk -/

/-- C10: for an event whose forward walk terminates because `id` reached
`maxdstep` (here `maxdstep = 2`, constant beam table 10, recoil energy 1,
zero stopping), the walk dereferences `Ebeam` at the indices
`[0, 1, 2, 2, 1]` — it reads `Ebeam[2] = Ebeam[maxdstep]`, both inside the
loop (`beamE = Ebeam[id]*K` after `id++`) and in the unconditional local
correction after the walk, and `maxdstep` lies outside the allocated extent
`[0, maxdstep−1]` of the `calloc(maxdstep, sizeof(double))` array.  The
claim that every read stays within `[0, maxdstep−1]` fails on the code. -/
theorem claim10_oob_read :
    recoilDepthBelow zeroSto (fun _ => 10) 1 1 1 0 2 2 3 5 1 =
      some (0, 10, [0, 1, 2, 2, 1]) ∧
    2 ∈ [0, 1, 2, 2, 1] ∧ ¬ ((2 : Nat) ≤ 2 - 1) := by
  refine ⟨?_, by decide, by decide⟩
  norm_num [recoilDepthBelow, recoilWalk, get_eloss, outerLoop, innerLoop, zeroSto,
    MAXSTOCHANGE, Option.map]

end Potku
